import Mathlib

/-!
Verification development for the llm-txt-gen URL-discovery and
page-classification pipeline (src/sitemap.ts, src/crawler.ts,
src/extractor.ts, src/formatter.ts).

The TypeScript source is shallowly embedded:
* network I/O (`fetch`) is an oracle `net : String → FetchOutcome`;
* the cheerio XML/HTML parser is an oracle (`load : String → XmlDoc` for
  sitemap documents, `hrefs : String → List String` for link extraction);
* the WHATWG `URL` constructor is an oracle returning `Option` (`none`
  models a thrown `TypeError`);
* JS numbers holding sitemap priorities are modelled as exact rationals
  (the priorities the code manipulates are small decimal fractions);
* unbounded `while`/recursion is indexed by explicit fuel; every claim is
  proved for all fuel values;
* `async` exceptions become `Option`/`Except` results; a function whose
  TypeScript body can never throw is given a total (non-`Except`) type.

Rational constants are written with `mkRat` so that concrete witnesses
kernel-evaluate.
-/

namespace LlmTxtGen

/-! ## JS string primitives -/

/-- Model of the JS `\s` character class / whitespace trimmed by
`String.prototype.trim` (restricted to the ASCII whitespace the
repository's inputs contain: space, tab, CR, LF). -/
def isJsSpace (c : Char) : Bool := c.isWhitespace

/-- JS regex line terminators (`\n`, `\r`; the astral separators
` `, ` ` are outside the modelled character range). -/
def isJsLineTerm (c : Char) : Bool := c = '\n' || c = '\r'

/-- ASCII case-insensitive character comparison, modelling the `i` regex
flag on the ASCII patterns the source uses. -/
def ciEq (a b : Char) : Bool := a.toLower == b.toLower

/-- Case-insensitive list prefix test (first argument is the pattern). -/
def ciStarts : List Char → List Char → Bool
  | [], _ => true
  | _ :: _, [] => false
  | p :: ps, c :: cs => ciEq p c && ciStarts ps cs

/-- Strip leading and trailing JS whitespace from a character list. -/
def trimChars (cs : List Char) : List Char :=
  ((cs.dropWhile isJsSpace).reverse.dropWhile isJsSpace).reverse

/-- `String.prototype.trim` (kernel-computable model). -/
def jsTrim (s : String) : String := String.mk (trimChars s.data)

/-- `String.prototype.includes`: substring containment. -/
def jsIncludes (s pat : String) : Bool :=
  let rec go : List Char → Bool
    | [] => pat.data.isPrefixOf []
    | c :: cs => pat.data.isPrefixOf (c :: cs) || go cs
  go s.data

/-- `baseUrl.replace(/\/$/, '')`: strip a single trailing slash. -/
def jsStripTrailingSlash (s : String) : String :=
  if s.data ≠ [] ∧ s.data.getLast? = some '/' then
    String.mk (s.data.dropLast)
  else s

/-- `url.split('#')[0]`: everything before the first `#`. -/
def jsSplitHash (s : String) : String :=
  String.mk (s.data.takeWhile (fun c => c ≠ '#'))

/-- Does `f` hold at some suffix position of the list (regex scan over
all start positions)? -/
def anyPos (f : List Char → Bool) : List Char → Bool
  | [] => f []
  | c :: cs => f (c :: cs) || anyPos f cs

/-! ## JS `parseFloat` -/

def digitsToNat (ds : List Char) : Nat :=
  ds.foldl (fun a c => 10 * a + (c.toNat - '0'.toNat)) 0

/-- Assemble a parsed mantissa/exponent into an exact rational:
`sign * (intDigits.fracDigits) * 10^expo`. -/
def floatVal (sign : Int) (intDs fracDs : List Char) (expo : Int) : ℚ :=
  let mant : Nat := digitsToNat intDs * 10 ^ fracDs.length + digitsToNat fracDs
  let e : Int := expo - fracDs.length
  if 0 ≤ e then mkRat (sign * mant * 10 ^ e.toNat) 1
  else mkRat (sign * mant) (10 ^ (-e).toNat)

/-- Exponent suffix `[eE][+-]?digits`; an ill-formed suffix is ignored
(`parseFloat("1e") === 1`). -/
def parseExpSuffix (cs : List Char) : Int :=
  match cs with
  | c :: t =>
    if c = 'e' || c = 'E' then
      let (es, t2) : Int × List Char :=
        match t with
        | '+' :: r => (1, r)
        | '-' :: r => (-1, r)
        | _ => (1, t)
      let ds := t2.takeWhile Char.isDigit
      if ds = [] then 0 else es * digitsToNat ds
    else 0
  | [] => 0

/-- Model of JS `parseFloat`: skip leading whitespace, optional sign,
decimal digits with optional fraction and exponent, longest valid
prefix; `none` models `NaN`.  (`Infinity` literals do not occur in
sitemap priorities and are not modelled.) -/
def jsParseFloat (s : String) : Option ℚ :=
  let cs := s.data.dropWhile isJsSpace
  let (sign, cs1) : Int × List Char :=
    match cs with
    | '-' :: t => (-1, t)
    | '+' :: t => (1, t)
    | _ => (1, cs)
  let intDs := cs1.takeWhile Char.isDigit
  let rest := cs1.dropWhile Char.isDigit
  match rest with
  | '.' :: t =>
    let fracDs := t.takeWhile Char.isDigit
    if intDs = [] ∧ fracDs = [] then none
    else some (floatVal sign intDs fracDs (parseExpSuffix (t.dropWhile Char.isDigit)))
  | _ =>
    if intDs = [] then none
    else some (floatVal sign intDs [] (parseExpSuffix rest))

/-- `x || d` applied to a `parseFloat` result: `NaN` (= `none`) and `±0`
are falsy and select the default. -/
def jsOrDefault (x : Option ℚ) (d : ℚ) : ℚ :=
  match x with
  | none => d
  | some q => if q = 0 then d else q

/-! ## Sitemap resolver (src/sitemap.ts)

Data model: `SitemapEntry` mirrors the exported interface.  The cheerio
document is abstracted as the element data the source actually reads:
the texts selected by `'sitemapindex sitemap loc'` and, per
`'urlset url'` element, the `.text()` of its `loc` / `priority` /
`lastmod` children (an absent child yields `""`, exactly what cheerio's
`.text()` returns on an empty selection). -/

structure SitemapEntry where
  url : String
  priority : ℚ
  lastmod : Option String
deriving DecidableEq, Repr

structure UrlElem where
  locText : String
  priorityText : String
  lastmodText : String
deriving DecidableEq, Repr

structure XmlDoc where
  childSitemapLocs : List String
  urls : List UrlElem
deriving DecidableEq, Repr

/-- Result of `await fetch(url)` followed by the `.ok`/`.text()` reads:
either the promise rejected (network failure / timeout) or a response
with an HTTP status and a body. -/
inductive FetchOutcome where
  | netFail : FetchOutcome
  | resp (status : Nat) (body : String) : FetchOutcome
deriving DecidableEq, Repr

/-- `res.ok`: status in the 2xx range. -/
def respOkB (status : Nat) : Bool := 200 ≤ status && status < 300

/-- Errors `fetchSitemap` can surface: the thrown
`Failed to fetch sitemap …: ${status}` error (carrying the HTTP status),
a rejected fetch promise, or exhaustion of the recursion fuel (an
artifact of the embedding, not of the source). -/
inductive SitemapError where
  | httpError (status : Nat) : SitemapError
  | netFail : SitemapError
  | noFuel : SitemapError
deriving DecidableEq, Repr

/-- Oracles for the sitemap component: the network, the cheerio XML
parse, and `new URL(u).origin` (only consulted for URLs whose fetch
succeeded, hence total). -/
structure SitemapEnv where
  net : String → FetchOutcome
  load : String → XmlDoc
  originOf : String → String

/-- One `'urlset url'` element of the `.each` loop body: skip when the
trimmed `loc` text is empty, otherwise build the entry with
`parseFloat(priorityText) || 0.5` and `lastmodText.trim() || undefined`. -/
def urlEntry (u : UrlElem) : Option SitemapEntry :=
  let loc := jsTrim u.locText
  if loc = "" then none
  else
    let priority := jsOrDefault (jsParseFloat u.priorityText) (mkRat 1 2)
    let lastmod := if jsTrim u.lastmodText = "" then none else some (jsTrim u.lastmodText)
    some { url := loc, priority := priority, lastmod := lastmod }

/-- The `urlset` `.each` loop: stop (`return false`) once `limit`
entries are accumulated, otherwise append the entry of each element that
has a `loc`. -/
def urlsetLoop (limit : Nat) : List UrlElem → List SitemapEntry → List SitemapEntry
  | [], acc => acc
  | u :: rest, acc =>
    if limit ≤ acc.length then acc
    else
      match urlEntry u with
      | none => urlsetLoop limit rest acc
      | some e => urlsetLoop limit rest (acc ++ [e])

/-- Stable insertion of an entry into a priority-descending list: the
new (later-in-source) entry goes after every existing entry of greater
or equal priority. -/
def insertDesc (e : SitemapEntry) : List SitemapEntry → List SitemapEntry
  | [] => [e]
  | x :: xs => if e.priority ≤ x.priority then x :: insertDesc e xs else e :: x :: xs

/-- Model of `entries.sort((a, b) => b.priority - a.priority)`:
`Array.prototype.sort` is required to be stable, and a stable sort's
output is uniquely determined by the comparator, so any stable
descending sort is a faithful model. -/
def jsSortByPriorityDesc (l : List SitemapEntry) : List SitemapEntry :=
  l.foldl (fun acc e => insertDesc e acc) []

mutual

/-- `parseSitemapXml(xml, origin, limit)`.  The `origin` parameter is
carried, as in the source, although the body never reads it.  The
function itself never throws: every child `fetchSitemap` call sits in a
`try { … } catch { /* skip broken child sitemaps */ }`. -/
def parseSitemapXml (fuel : Nat) (env : SitemapEnv) (xml : String)
    (origin : String) (limit : Nat) : List SitemapEntry :=
  let doc := env.load xml
  if doc.childSitemapLocs ≠ [] then
    (childSitemapLoop fuel env limit doc.childSitemapLocs []).take limit
  else
    jsSortByPriorityDesc (urlsetLoop limit doc.urls [])
termination_by (fuel, 2, 0)

/-- The `for (const el of childSitemaps)` loop of the sitemapindex
branch: stop at `limit`, fetch each child with the remaining budget,
and skip a child whose fetch/parse throws. -/
def childSitemapLoop (fuel : Nat) (env : SitemapEnv) (limit : Nat) :
    List String → List SitemapEntry → List SitemapEntry
  | [], acc => acc
  | c :: rest, acc =>
    if limit ≤ acc.length then acc
    else
      match fetchSitemap fuel env (jsTrim c) (limit - acc.length) with
      | Except.ok es => childSitemapLoop fuel env limit rest (acc ++ es)
      | Except.error _ => childSitemapLoop fuel env limit rest acc
termination_by cs _ => (fuel, 1, cs.length)

/-- `fetchSitemap(sitemapUrl, limit)`: fetch, throw on a rejected
promise or a non-2xx status (the error carries the status), else parse
the body. -/
def fetchSitemap (fuel : Nat) (env : SitemapEnv) (url : String) (limit : Nat) :
    Except SitemapError (List SitemapEntry) :=
  match fuel with
  | 0 => Except.error SitemapError.noFuel
  | fuel' + 1 =>
    match env.net url with
    | FetchOutcome.netFail => Except.error SitemapError.netFail
    | FetchOutcome.resp status body =>
      if respOkB status then
        Except.ok (parseSitemapXml fuel' env body (env.originOf url) limit)
      else
        Except.error (SitemapError.httpError status)
termination_by (fuel, 0, 0)

end

/-! ### discoverSitemapUrl -/

/-- Attempt `/^Sitemap:\s*(.+)$/i` at one `m`-anchor position, returning
the captured group already passed through the source's `.trim()`.
After the literal, `\s*` greedily skips whitespace (including line
breaks); `(.+)$` then needs at least one non-line-terminator character
up to the end of its line.  When everything after the literal is
whitespace, backtracking still succeeds if some of it is
non-line-terminator whitespace, and the capture then trims to `""`. -/
def sitemapDirectiveAt (cs : List Char) : Option String :=
  if ciStarts ("sitemap:".data) cs then
    let afterLit := cs.drop 8
    let afterWs := afterLit.dropWhile isJsSpace
    match afterWs with
    | _ :: _ => some (String.mk (trimChars (afterWs.takeWhile (fun c => !isJsLineTerm c))))
    | [] =>
      if (afterLit.takeWhile isJsSpace).any (fun c => !isJsLineTerm c) then some ""
      else none
  else none

mutual

/-- Scan the string's `m`-mode anchors (start of input and every
position after a line terminator) left to right for the first
`Sitemap:` directive match; models
`robotsTxt.match(/^Sitemap:\s*(.+)$/mi)` composed with `match[1].trim()`. -/
def robotsSitemapValue (cs : List Char) : Option String :=
  match sitemapDirectiveAt cs with
  | some v => some v
  | none => robotsSkipLine cs
termination_by (cs.length, 1)

/-- Advance to the next anchor: consume characters up to and including
the next line terminator. -/
def robotsSkipLine : List Char → Option String
  | [] => none
  | c :: rest => if isJsLineTerm c then robotsSitemapValue rest else robotsSkipLine rest
termination_by cs => (cs.length, 0)

end

/-- Is a candidate URL accepted by `discoverSitemapUrl`'s loop body:
fetchable with an ok status and a body containing `<urlset` or
`<sitemapindex`?  (Spec-side predicate used to characterise the loop.) -/
def sitemapAccepted (env : SitemapEnv) (url : String) : Bool :=
  match env.net url with
  | FetchOutcome.netFail => false
  | FetchOutcome.resp status body =>
    respOkB status && (jsIncludes body "<urlset" || jsIncludes body "<sitemapindex")

/-- The `for (const url of candidates)` loop: return the first candidate
that fetches ok and whose body contains a sitemap marker; a rejected
fetch is swallowed (`catch { /* continue */ }`). -/
def tryCandidates (env : SitemapEnv) : List String → Option String
  | [] => none
  | u :: rest =>
    match env.net u with
    | FetchOutcome.netFail => tryCandidates env rest
    | FetchOutcome.resp status body =>
      if respOkB status && (jsIncludes body "<urlset" || jsIncludes body "<sitemapindex") then
        some u
      else tryCandidates env rest

/-- The candidate list `discoverSitemapUrl` builds: a robots.txt-declared
sitemap URL (when robots.txt fetches ok and matches the directive
regex; a rejected robots fetch is swallowed) followed by the three
well-known paths. -/
def discoverCandidates (env : SitemapEnv) (baseUrl : String) : List String :=
  let normalized := jsStripTrailingSlash baseUrl
  let robotsCands : List String :=
    match env.net (normalized ++ "/robots.txt") with
    | FetchOutcome.netFail => []
    | FetchOutcome.resp status body =>
      if respOkB status then
        match robotsSitemapValue body.data with
        | some u => [u]
        | none => []
      else []
  robotsCands ++
    [normalized ++ "/sitemap.xml",
     normalized ++ "/sitemap_index.xml",
     normalized ++ "/sitemap/sitemap.xml"]

/-- `discoverSitemapUrl(baseUrl)`: never throws — every fetch sits in a
`try`/`catch` — and returns the first acceptable candidate or `null`. -/
def discoverSitemapUrl (env : SitemapEnv) (baseUrl : String) : Option String :=
  tryCandidates env (discoverCandidates env baseUrl)

/-! ## Crawl fallback (src/crawler.ts) -/

/-- The fields of a parsed WHATWG `URL` the crawler reads. -/
structure UrlParts where
  href : String
  origin : String
  pathname : String
deriving DecidableEq, Repr

/-- Oracles for the crawler: the network, cheerio's `$('a[href]')`
attribute extraction from an HTML body, `new URL(href, base)` resolution
and `new URL(u)` parsing (`none` models a thrown `TypeError`). -/
structure CrawlEnv where
  net : String → FetchOutcome
  hrefs : String → List String
  resolve : String → String → Option UrlParts
  parse : String → Option UrlParts

/-- The extension alternation of `SKIP_EXTENSIONS`. -/
def SKIP_EXTS : List String :=
  ["pdf", "jpg", "jpeg", "png", "gif", "svg", "webp", "css", "js", "ico",
   "xml", "json", "zip", "tar", "gz", "woff", "woff2", "ttf"]

/-- Match `\.(ext)(\?|$)` at one position of the (lowercased) pathname. -/
def skipExtAt (cs : List Char) : Bool :=
  match cs with
  | '.' :: rest =>
    SKIP_EXTS.any (fun e =>
      e.data.isPrefixOf rest &&
        match rest.drop e.data.length with
        | [] => true
        | '?' :: _ => true
        | _ => false)
  | _ => false

/-- `SKIP_EXTENSIONS.test(pathname)` (`i` flag via lowercasing). -/
def hasSkipExtension (pathname : String) : Bool :=
  anyPos skipExtAt (pathname.data.map Char.toLower)

/-- `fetchPage(url)` as consumed inside `crawlSite`'s `try`: `none` when
the fetch rejects or the status is non-2xx (the function throws),
otherwise the body. -/
def fetchPageOpt (env : CrawlEnv) (url : String) : Option String :=
  match env.net url with
  | FetchOutcome.netFail => none
  | FetchOutcome.resp status body => if respOkB status then some body else none

/-- The `$('a[href]').each` body: resolve each href against the current
page, strip the fragment, and append it to the queue when it is
same-origin, unvisited, not already queued and not a static asset;
empty hrefs and unresolvable hrefs are skipped. -/
def enqueueLinks (env : CrawlEnv) (origin : String) (visited : List String)
    (base : String) : List String → List String → List String
  | [], queue => queue
  | href :: hs, queue =>
    let queue' :=
      if href = "" then queue
      else
        match env.resolve href base with
        | none => queue
        | some abs =>
          let clean := jsSplitHash abs.href
          if abs.origin = origin && !visited.contains clean &&
              !queue.contains clean && !hasSkipExtension abs.pathname then
            queue ++ [clean]
          else queue
    enqueueLinks env origin visited base hs queue'

/-- The `while (queue.length > 0 && entries.length < limit)` loop.
`fuel` bounds the number of iterations (the source's loop is bounded by
`limit` plus the number of enqueued URLs, but no termination argument is
needed for the claims, which hold for every fuel). -/
def crawlLoop (env : CrawlEnv) (origin : String) (limit : Nat) :
    Nat → List String → List String → List SitemapEntry → List SitemapEntry
  | 0, _, _, entries => entries
  | _ + 1, [], _, entries => entries
  | fuel + 1, url :: rest, visited, entries =>
    if limit ≤ entries.length then entries
    else
      let normalized := jsSplitHash url
      if visited.contains normalized then
        crawlLoop env origin limit fuel rest visited entries
      else
        let visited' := normalized :: visited
        match fetchPageOpt env normalized with
        | none => crawlLoop env origin limit fuel rest visited' entries
        | some html =>
          match env.parse normalized with
          | none =>
            -- `new URL(normalized)` threw inside the `try`: page skipped.
            crawlLoop env origin limit fuel rest visited' entries
          | some parts =>
            let isHome := parts.pathname = "/" || normalized = origin
            let entry : SitemapEntry :=
              { url := normalized,
                priority := if isHome then 1 else mkRat 1 2,
                lastmod := none }
            let queue' := enqueueLinks env origin visited' normalized (env.hrefs html) rest
            crawlLoop env origin limit fuel queue' visited' (entries ++ [entry])

/-- `crawlSite(baseUrl, limit)`: `none` models the throw of
`new URL(baseUrl)` on an unparsable base URL; otherwise run the BFS from
the normalized seed (`baseUrl.replace(/\/$/, '') || origin`). -/
def crawlSite (env : CrawlEnv) (baseUrl : String) (limit : Nat) (fuel : Nat) :
    Option (List SitemapEntry) :=
  match env.parse baseUrl with
  | none => none
  | some b =>
    let origin := b.origin
    let seed := if jsStripTrailingSlash baseUrl = "" then origin
                else jsStripTrailingSlash baseUrl
    some (crawlLoop env origin limit fuel [seed] [] [])

/-! ## Content extractor accessors (src/extractor.ts) -/

structure PageData where
  url : String
  title : String
  description : String
  h1 : String
  content : String
deriving DecidableEq, Repr

/-- `page.description || page.h1 || page.title || page.url`. -/
def getPageDescription (page : PageData) : String :=
  if page.description ≠ "" then page.description
  else if page.h1 ≠ "" then page.h1
  else if page.title ≠ "" then page.title
  else page.url

/-- `page.title || page.h1 || page.url`. -/
def getPageTitle (page : PageData) : String :=
  if page.title ≠ "" then page.title
  else if page.h1 ≠ "" then page.h1
  else page.url

/-! ## Classifier / formatter (src/formatter.ts)

`new URL(url).pathname` is abstracted as an oracle
`pu : String → Option String` (`none` models the thrown `TypeError`
arm of each `try`/`catch`). -/

/-- The separator class `[|\-–—]` of `cleanTitle`'s regex. -/
def sepChar (c : Char) : Bool := c = '|' || c = '-' || c = '–' || c = '—'

/-- `\s*S\s*$` with backtracking on the leading `\s*` (the escaped site
name `S` is matched as a case-insensitive literal). -/
def siteTailMatch (site : List Char) : List Char → Bool
  | [] => false
  | c :: rest =>
    (ciStarts site (c :: rest) && ((c :: rest).drop site.length).all isJsSpace) ||
      (isJsSpace c && siteTailMatch site rest)

/-- `\s*[|\-–—]\s*S\s*$` starting at this position. -/
def sepTailMatch (site : List Char) : List Char → Bool
  | [] => false
  | c :: rest =>
    (sepChar c && siteTailMatch site rest) ||
      (isJsSpace c && sepTailMatch site rest)

/-- `title.replace(new RegExp("\\s*[|\\-–—]\\s*" + escaped + "\\s*$", 'i'), '')`:
delete from the leftmost position where the anchored suffix pattern
matches (the match always extends to the end of the string). -/
def replaceSiteSuffix (site : List Char) : List Char → List Char
  | [] => []
  | c :: rest =>
    if sepTailMatch site (c :: rest) then []
    else c :: replaceSiteSuffix site rest

/-- `cleanTitle(title, siteName)`. -/
def cleanTitle (title siteName : String) : String :=
  if siteName = "" || title = "" then title
  else String.mk (trimChars (replaceSiteSuffix siteName.data title.data))

/-- The verb alternation of `cleanDescription`'s leading regex. -/
def INVENTORY_VERBS : List String := ["Explore", "Browse", "Download", "Find", "Discover"]

/-- Match one verb of
`/^(Explore|Browse|Download|Find|Discover)\s+[\d,]+\s+royalty[- ]free\s+/i`
at the start and return the remainder after the match. -/
def inventoryTail (verb : List Char) (cs : List Char) : Option (List Char) :=
  if ciStarts verb cs then
    let r1 := cs.drop verb.length
    let ws1 := r1.takeWhile isJsSpace
    if ws1 = [] then none
    else
      let r2 := r1.drop ws1.length
      let digs := r2.takeWhile (fun c => c.isDigit || c = ',')
      if digs = [] then none
      else
        let r3 := r2.drop digs.length
        let ws2 := r3.takeWhile isJsSpace
        if ws2 = [] then none
        else
          let r4 := r3.drop ws2.length
          if ciStarts ("royalty".data) r4 then
            match r4.drop 7 with
            | c :: r5 =>
              if (c = '-' || c = ' ') && ciStarts ("free".data) r5 then
                let r6 := r5.drop 4
                let ws3 := r6.takeWhile isJsSpace
                if ws3 = [] then none else some (r6.drop ws3.length)
              else none
            | [] => none
          else none
  else none

/-- Apply the leading inventory-count strip (no-op when the anchored
regex does not match). -/
def stripInventory (cs : List Char) : List Char :=
  match INVENTORY_VERBS.findSome? (fun v => inventoryTail v.data cs) with
  | some r => r
  | none => cs

/-- After an em/en dash: does `\s*available\s+.{0,80}$` match?  The
maximal whitespace skip is optimal for the bounded `.{0,80}$`, so no
backtracking is needed. -/
def availTailOk (rest : List Char) : Bool :=
  let a := rest.dropWhile isJsSpace
  ciStarts ("available".data) a &&
    (let b := a.drop 9
     let w := b.takeWhile isJsSpace
     let r := b.drop w.length
     !w.isEmpty && r.length ≤ 80 && r.all (fun c => !isJsLineTerm c))

/-- `desc.replace(/\s*[—–]\s*available\s+.{0,80}$/i, '')`: delete from
the leftmost dash whose tail matches.  (The regex also swallows the
whitespace run before the dash; since the result is `.trim()`ed right
after, keeping that run changes nothing, see `cleanDescription`.) -/
def stripAvailableTail : List Char → List Char
  | [] => []
  | c :: rest =>
    if (c = '—' || c = '–') && availTailOk rest then []
    else c :: stripAvailableTail rest

/-- `cleanDescription(desc)`: strip the inventory prefix, the
`— available …` tail, trim, and fall back to the original when the
result is empty (`return cleaned || desc`). -/
def cleanDescription (desc : String) : String :=
  let cleaned := String.mk (trimChars (stripAvailableTail (stripInventory desc.data)))
  if cleaned = "" then desc else cleaned

/-- JS `\w` (`[A-Za-z0-9_]`). -/
def isWordChar (c : Char) : Bool := c.isAlphanum || c = '_'

/-- `/\/word\b/i` at one position: a slash, the word case-insensitively,
then end-of-string or a non-word character. -/
def slashWordAt (w : List Char) (cs : List Char) : Bool :=
  match cs with
  | '/' :: rest =>
    ciStarts w rest &&
      (match rest.drop w.length with
       | [] => true
       | c :: _ => !isWordChar c)
  | _ => false

/-- A path pattern of the classifier tables: the exact root path, or a
word-boundary alternation `/\/(w1|w2|…)\b/i`.  An optional-letter suffix
such as `docs?` is expanded into both alternatives. -/
inductive PathPat where
  | root : PathPat
  | anyWord (ws : List String) : PathPat

def PathPat.test (p : PathPat) (path : String) : Bool :=
  match p with
  | PathPat.root => path = "/"
  | PathPat.anyWord ws => ws.any (fun w => anyPos (slashWordAt w.data) path.data)

def KEY_PAGE_PATTERNS : List PathPat :=
  [PathPat.root,
   PathPat.anyWord ["pricing"],
   PathPat.anyWord ["license", "legal", "terms", "tos"],
   PathPat.anyWord ["help", "support", "faq", "contact"],
   PathPat.anyWord ["about"]]

def SECTION_PATTERNS : List (String × PathPat) :=
  [("Documentation", PathPat.anyWord ["docs", "doc", "documentation", "guides", "guide",
                                      "tutorials", "tutorial", "reference"]),
   ("Blog", PathPat.anyWord ["blog", "posts", "post", "articles", "article",
                             "news", "insights", "insight"]),
   ("Pricing", PathPat.anyWord ["pricing"]),
   ("Help & Support", PathPat.anyWord ["help", "support", "faq", "contact"]),
   ("Legal", PathPat.anyWord ["legal", "terms", "license", "privacy", "tos"]),
   ("About", PathPat.anyWord ["about", "team", "company", "careers", "career", "press"]),
   ("API & Reference", PathPat.anyWord ["api", "sdk", "reference"])]

/-- `isKeyPage(url)`: `false` when `new URL(url)` throws. -/
def isKeyPage (pu : String → Option String) (url : String) : Bool :=
  match pu url with
  | none => false
  | some pathname => KEY_PAGE_PATTERNS.any (fun p => p.test pathname)

/-- `pathname.split('/')` (kernel-computable model of the
single-character-separator split). -/
def splitSlash : List Char → List (List Char)
  | [] => [[]]
  | c :: rest =>
    if c = '/' then [] :: splitSlash rest
    else
      match splitSlash rest with
      | s :: ss => (c :: s) :: ss
      | [] => [[c]]

/-- The fallback label derivation: replace every hyphen of the segment
with a space (global hyphen regex), then uppercase each character
matching `\b\w` (a word character at a word boundary). -/
def titleCaseSegment (seg : List Char) : List Char :=
  let spaced := seg.map (fun c => if c = '-' then ' ' else c)
  let rec go (prevWord : Bool) : List Char → List Char
    | [] => []
    | c :: cs => (if isWordChar c && !prevWord then c.toUpper else c) :: go (isWordChar c) cs
  go false spaced

/-- `getSectionLabel(url)`: first matching topic pattern, else the
title-cased first path segment, else `Key Pages`; also `Key Pages` when
`new URL(url)` throws. -/
def getSectionLabel (pu : String → Option String) (url : String) : String :=
  match pu url with
  | none => "Key Pages"
  | some pathname =>
    match SECTION_PATTERNS.find? (fun lp => lp.2.test pathname) with
    | some lp => lp.1
    | none =>
      match (splitSlash pathname.data).filter (fun s => s ≠ []) with
      | [] => "Key Pages"
      | seg :: _ => String.mk (titleCaseSegment seg)

/-- `pages.find(p => pattern.test(new URL(p.url).pathname))` with the
`try`/`catch` returning `false` on an unparsable URL. -/
def findByPat (pu : String → Option String) (pat : PathPat) (pages : List PageData) :
    Option PageData :=
  pages.find? (fun p =>
    match pu p.url with
    | some path => pat.test path
    | none => false)

/-- `buildAnsweringGuidelines(pages)`. -/
def buildAnsweringGuidelines (pu : String → Option String) (pages : List PageData) :
    List String :=
  let pricingPage := findByPat pu (PathPat.anyWord ["pricing"]) pages
  let licensePage := findByPat pu (PathPat.anyWord ["license", "legal", "terms"]) pages
  let helpPage := findByPat pu (PathPat.anyWord ["help", "support", "faq"]) pages
  if pricingPage = none ∧ licensePage = none ∧ helpPage = none then []
  else
    (match pricingPage with
     | some p => ["- For pricing and subscription questions, refer to: " ++ p.url]
     | none => []) ++
    (match licensePage with
     | some p => ["- For licensing and usage rights questions, refer to: " ++ p.url]
     | none => []) ++
    (match helpPage with
     | some p => ["- For support questions, refer to: " ++ p.url]
     | none => []) ++
    ["- Do not guess at prices, license terms, or legal details — always cite the source pages above."]

/-- `pages.filter(p => isKeyPage(p.url))`. -/
def keyPages (pu : String → Option String) (pages : List PageData) : List PageData :=
  pages.filter (fun p => isKeyPage pu p.url)

/-- `pages.filter(p => !isKeyPage(p.url))`. -/
def otherPages (pu : String → Option String) (pages : List PageData) : List PageData :=
  pages.filter (fun p => !isKeyPage pu p.url)

/-- One `sectionMap` update: `Map` keeps insertion order of keys, so the
group list appends a new key at the end and extends an existing key's
bucket in place. -/
def addToSections (gs : List (String × List PageData)) (label : String) (p : PageData) :
    List (String × List PageData) :=
  match gs with
  | [] => [(label, [p])]
  | (l, ps) :: rest =>
    if l = label then (l, ps ++ [p]) :: rest
    else (l, ps) :: addToSections rest label p

/-- The `sectionMap` built from the non-key pages. -/
def sectionGroups (pu : String → Option String) (pages : List PageData) :
    List (String × List PageData) :=
  (otherPages pu pages).foldl (fun gs p => addToSections gs (getSectionLabel pu p.url) p) []

/-- ``- [${title}](${page.url}): ${desc}`` with cleaned title and
description. -/
def pageLine (siteName : String) (page : PageData) : String :=
  "- [" ++ cleanTitle (getPageTitle page) siteName ++ "](" ++ page.url ++ "): " ++
    cleanDescription (getPageDescription page)

/-- The `lines` array of `formatLlmTxt` in push order.  The generation
date is injected as the already-serialised ISO calendar date
(`(generatedAt ?? new Date()).toISOString().split('T')[0]`). -/
def formatLines (pu : String → Option String) (siteName siteDescription : String)
    (pages : List PageData) (date : String) : List String :=
  let header := ["# " ++ siteName, "", "> " ++ siteDescription, "",
                 "*Generated: " ++ date ++ "*", ""]
  let kps := keyPages pu pages
  let keySection :=
    if kps.isEmpty then []
    else ["## Key Pages", ""] ++ kps.map (pageLine siteName) ++ [""]
  let topicSections :=
    (sectionGroups pu pages).flatMap (fun g =>
      ["## " ++ g.1, ""] ++ g.2.map (pageLine siteName) ++ [""])
  let guidelines := buildAnsweringGuidelines pu pages
  let guidelineSection :=
    if guidelines.isEmpty then []
    else ["## Answering Guidelines", ""] ++ guidelines ++ [""]
  header ++ keySection ++ topicSections ++ guidelineSection

/-- `lines.join('\n')`. -/
def joinNl : List String → String
  | [] => ""
  | [s] => s
  | s :: rest => s ++ "\n" ++ joinNl rest

/-- `formatLlmTxt({siteName, siteDescription, pages, generatedAt})`. -/
def formatLlmTxt (pu : String → Option String) (siteName siteDescription : String)
    (pages : List PageData) (date : String) : String :=
  joinNl (formatLines pu siteName siteDescription pages date)

/-! ## Spec-side helper definitions used by the theorems -/

/-- A rendered markdown section-heading line (`## ` prefix). -/
def isSectionHeading (s : String) : Bool := s.data.take 3 = ['#', '#', ' ']

/-- Total number of occurrences of a page across the topic-section
buckets. -/
def sectionsCount (gs : List (String × List PageData)) (p : PageData) : Nat :=
  gs.foldr (fun g n => g.2.count p + n) 0

/-- Concrete sitemap environment where every fetch rejects. -/
def envAllFail : SitemapEnv :=
  { net := fun _ => FetchOutcome.netFail,
    load := fun _ => { childSitemapLocs := [], urls := [] },
    originOf := fun _ => "" }

/-- Concrete sitemap environment whose XML parse yields the four-entry
urlset of the repository's test fixture. -/
def envUrlset : SitemapEnv :=
  { net := fun _ => FetchOutcome.netFail,
    load := fun _ =>
      { childSitemapLocs := [],
        urls :=
          [{ locText := "https://example.com/", priorityText := "1.0",
             lastmodText := "2024-01-15" },
           { locText := "https://example.com/about", priorityText := "0.8",
             lastmodText := "" },
           { locText := "https://example.com/docs", priorityText := "0.9",
             lastmodText := "2024-02-01" },
           { locText := "https://example.com/blog/post-1", priorityText := "0.5",
             lastmodText := "" }] },
    originOf := fun _ => "" }

/-- Concrete sitemap environment: every fetch rejects, and the XML parse
yields a sitemapindex with a single child sitemap. -/
def envIndexOneChild : SitemapEnv :=
  { net := fun _ => FetchOutcome.netFail,
    load := fun _ =>
      { childSitemapLocs := ["https://example.com/broken-sitemap.xml"], urls := [] },
    originOf := fun _ => "" }

/-- Concrete sitemap environment answering every fetch with HTTP 404. -/
def env404 : SitemapEnv :=
  { net := fun _ => FetchOutcome.resp 404 "Not Found",
    load := fun _ => { childSitemapLocs := [], urls := [] },
    originOf := fun _ => "" }

/-- Concrete crawl environment for a site whose seed page lives at
`/docs`: the seed fetch succeeds with a link-free body, everything else
fails. -/
def envCrawlDocs : CrawlEnv :=
  { net := fun u =>
      if u = "https://example.com/docs" then FetchOutcome.resp 200 "<html></html>"
      else FetchOutcome.netFail,
    hrefs := fun _ => [],
    resolve := fun _ _ => none,
    parse := fun u =>
      if u = "https://example.com/docs" then
        some { href := "https://example.com/docs",
               origin := "https://example.com",
               pathname := "/docs" }
      else none }

/-- Pathname oracle on which every URL fails to parse (only degenerate
classification paths are exercised). -/
def puNone : String → Option String := fun _ => none

/-- Pathname oracle mapping two concrete URLs of the witness page set. -/
def puPair : String → Option String := fun u =>
  if u = "https://example.com/" then some "/"
  else if u = "https://example.com/blog/hello" then some "/blog/hello"
  else none

/-- Two-page witness list: the homepage (a key page) and a blog post. -/
def pagesPair : List PageData :=
  [{ url := "https://example.com/", title := "Home", description := "d1",
     h1 := "h", content := "" },
   { url := "https://example.com/blog/hello", title := "Hello", description := "d2",
     h1 := "h", content := "" }]

/-! ## Lemmas: the stable descending sort -/

/-- Priority-descending adjacency relation of the sorted output. -/
def prioGE (a b : SitemapEntry) : Prop := b.priority ≤ a.priority

theorem length_insertDesc (e : SitemapEntry) (l : List SitemapEntry) :
    (insertDesc e l).length = l.length + 1 := by
  induction l with
  | nil => rfl
  | cons x xs ih =>
    simp only [insertDesc]
    by_cases h : e.priority ≤ x.priority <;> simp [h, ih]

theorem mem_insertDesc {a e : SitemapEntry} {l : List SitemapEntry} :
    a ∈ insertDesc e l ↔ a = e ∨ a ∈ l := by
  induction l with
  | nil => simp [insertDesc]
  | cons x xs ih =>
    simp only [insertDesc]
    by_cases h : e.priority ≤ x.priority
    · simp only [h, if_true, List.mem_cons, ih]
      tauto
    · simp only [h, if_false, List.mem_cons]

theorem sorted_insertDesc {e : SitemapEntry} {l : List SitemapEntry}
    (hl : l.Pairwise prioGE) : (insertDesc e l).Pairwise prioGE := by
  induction l with
  | nil => simp [insertDesc, List.Pairwise]
  | cons x xs ih =>
    rw [List.pairwise_cons] at hl
    simp only [insertDesc]
    by_cases h : e.priority ≤ x.priority
    · simp only [h, if_true, List.pairwise_cons]
      refine ⟨fun y hy => ?_, ih hl.2⟩
      rcases mem_insertDesc.mp hy with rfl | hy
      · exact h
      · exact hl.1 y hy
    · simp only [h, if_false, List.pairwise_cons]
      push_neg at h
      refine ⟨fun y hy => ?_, ?_⟩
      · rcases List.mem_cons.mp hy with rfl | hy
        · exact le_of_lt h
        · exact le_trans (hl.1 y hy) (le_of_lt h)
      · exact hl

theorem filter_insertDesc (p : ℚ) (e : SitemapEntry) (l : List SitemapEntry)
    (hl : l.Pairwise prioGE) :
    (insertDesc e l).filter (fun x => decide (x.priority = p)) =
      l.filter (fun x => decide (x.priority = p)) ++
        (if e.priority = p then [e] else []) := by
  induction l with
  | nil => by_cases h : e.priority = p <;> simp [insertDesc, h]
  | cons x xs ih =>
    rw [List.pairwise_cons] at hl
    simp only [insertDesc]
    by_cases h : e.priority ≤ x.priority
    · simp only [h, if_true, List.filter_cons]
      by_cases hx : x.priority = p <;> simp [hx, ih hl.2]
    · push_neg at h
      simp only [h.not_le, if_false]
      by_cases he : e.priority = p
      · have hnil : (x :: xs).filter (fun x => decide (x.priority = p)) = [] := by
          rw [List.filter_eq_nil_iff]
          intro a ha
          rcases List.mem_cons.mp ha with rfl | ha
          · simp only [decide_eq_true_eq]
            exact fun hc => absurd (hc ▸ h) (by rw [← he]; exact lt_irrefl _)
          · have : a.priority ≤ x.priority := hl.1 a ha
            simp only [decide_eq_true_eq]
            intro hc
            rw [hc, ← he] at this
            exact absurd (lt_of_lt_of_le h this) (lt_irrefl _)
        rw [List.filter_cons_of_pos (by simpa using he), hnil]
        simp [he]
      · rw [List.filter_cons_of_neg (by simpa using he)]
        simp [he]

theorem sorted_foldl_insertDesc (l acc : List SitemapEntry)
    (hacc : acc.Pairwise prioGE) :
    (l.foldl (fun a e => insertDesc e a) acc).Pairwise prioGE := by
  induction l generalizing acc with
  | nil => exact hacc
  | cons x xs ih => exact ih (insertDesc x acc) (sorted_insertDesc hacc)

theorem sorted_jsSort (l : List SitemapEntry) :
    (jsSortByPriorityDesc l).Pairwise prioGE :=
  sorted_foldl_insertDesc l [] (by simp)

theorem filter_foldl_insertDesc (p : ℚ) (l acc : List SitemapEntry)
    (hacc : acc.Pairwise prioGE) :
    (l.foldl (fun a e => insertDesc e a) acc).filter (fun x => decide (x.priority = p)) =
      acc.filter (fun x => decide (x.priority = p)) ++
        l.filter (fun x => decide (x.priority = p)) := by
  induction l generalizing acc with
  | nil => simp
  | cons x xs ih =>
    simp only [List.foldl_cons]
    rw [ih (insertDesc x acc) (sorted_insertDesc hacc),
      filter_insertDesc p x acc hacc, List.filter_cons]
    by_cases hx : x.priority = p <;> simp [hx]

theorem filter_jsSort (p : ℚ) (l : List SitemapEntry) :
    (jsSortByPriorityDesc l).filter (fun x => decide (x.priority = p)) =
      l.filter (fun x => decide (x.priority = p)) := by
  have := filter_foldl_insertDesc p l [] (by simp)
  simpa [jsSortByPriorityDesc] using this

theorem length_foldl_insertDesc (l acc : List SitemapEntry) :
    (l.foldl (fun a e => insertDesc e a) acc).length = acc.length + l.length := by
  induction l generalizing acc with
  | nil => simp
  | cons x xs ih => simp [List.foldl_cons, ih, length_insertDesc]; omega

theorem length_jsSort (l : List SitemapEntry) :
    (jsSortByPriorityDesc l).length = l.length := by
  have := length_foldl_insertDesc l []
  simpa [jsSortByPriorityDesc] using this

theorem mem_foldl_insertDesc {a : SitemapEntry} (l acc : List SitemapEntry) :
    a ∈ l.foldl (fun acc e => insertDesc e acc) acc ↔ a ∈ acc ∨ a ∈ l := by
  induction l generalizing acc with
  | nil => simp
  | cons x xs ih =>
    simp only [List.foldl_cons, ih, mem_insertDesc, List.mem_cons]
    tauto

theorem mem_jsSort {a : SitemapEntry} (l : List SitemapEntry) :
    a ∈ jsSortByPriorityDesc l ↔ a ∈ l := by
  have := mem_foldl_insertDesc (a := a) l []
  simpa [jsSortByPriorityDesc] using this

/-! ## Lemmas: the urlset branch of parseSitemapXml -/

theorem urlEntry_isSome_of_loc {u : UrlElem} (h : jsTrim u.locText ≠ "") :
    ∃ e, urlEntry u = some e := by
  unfold urlEntry
  rw [if_neg h]
  exact ⟨_, rfl⟩

theorem length_filterMap_urlEntry {us : List UrlElem}
    (h : ∀ u ∈ us, jsTrim u.locText ≠ "") :
    (us.filterMap urlEntry).length = us.length := by
  induction us with
  | nil => rfl
  | cons u rest ih =>
    obtain ⟨e, he⟩ := urlEntry_isSome_of_loc (h u (List.mem_cons_self u rest))
    simp [List.filterMap_cons, he, ih (fun v hv => h v (List.mem_cons_of_mem u hv))]

theorem urlsetLoop_eq_filterMap (limit : Nat) (us : List UrlElem)
    (acc : List SitemapEntry)
    (h : acc.length + (us.filterMap urlEntry).length ≤ limit) :
    urlsetLoop limit us acc = acc ++ us.filterMap urlEntry := by
  induction us generalizing acc with
  | nil => simp [urlsetLoop]
  | cons u rest ih =>
    simp only [urlsetLoop]
    have hlt : ¬ limit ≤ acc.length ∨ (u :: rest).filterMap urlEntry = [] := by
      by_cases hc : limit ≤ acc.length
      · right
        have : ((u :: rest).filterMap urlEntry).length = 0 := by omega
        exact List.length_eq_zero.mp this
      · left; exact hc
    rcases hlt with hlt | hnil
    · simp only [hlt, if_false]
      cases hu : urlEntry u with
      | none =>
        rw [List.filterMap_cons_none hu] at h ⊢
        exact ih acc h
      | some e =>
        rw [List.filterMap_cons_some hu] at h
        have hrec : urlsetLoop limit rest (acc ++ [e]) =
            (acc ++ [e]) ++ rest.filterMap urlEntry := by
          refine ih (acc ++ [e]) ?_
          simp only [List.length_append, List.length_cons, List.length_nil] at h ⊢
          omega
        rw [List.filterMap_cons_some hu]
        simpa using hrec
    · -- the budget is exhausted and nothing more would be appended anyway
      have hnone : urlEntry u = none := by
        cases hu : urlEntry u with
        | none => rfl
        | some e => rw [List.filterMap_cons_some hu] at hnil; simp at hnil
      have hrest : rest.filterMap urlEntry = [] := by
        rwa [List.filterMap_cons_none hnone] at hnil
      by_cases hc : limit ≤ acc.length
      · simp only [hc, if_true]
        rw [List.filterMap_cons_none hnone, hrest, List.append_nil]
      · simp only [hc, if_false, hnone]
        rw [ih acc (by rw [hrest]; simp; omega), List.filterMap_cons_none hnone]

theorem mem_urlsetLoop {e : SitemapEntry} (limit : Nat) (us : List UrlElem)
    (acc : List SitemapEntry) (h : e ∈ urlsetLoop limit us acc) :
    e ∈ acc ∨ ∃ u ∈ us, urlEntry u = some e := by
  induction us generalizing acc with
  | nil => exact Or.inl (by simpa [urlsetLoop] using h)
  | cons u rest ih =>
    simp only [urlsetLoop] at h
    by_cases hc : limit ≤ acc.length
    · rw [if_pos hc] at h
      exact Or.inl h
    · rw [if_neg hc] at h
      cases hu : urlEntry u with
      | none =>
        rw [hu] at h
        rcases ih acc h with h | ⟨v, hv, hve⟩
        · exact Or.inl h
        · exact Or.inr ⟨v, List.mem_cons_of_mem u hv, hve⟩
      | some e' =>
        rw [hu] at h
        rcases ih (acc ++ [e']) h with h | ⟨v, hv, hve⟩
        · rcases List.mem_append.mp h with h | h
          · exact Or.inl h
          · simp at h
            exact Or.inr ⟨u, List.mem_cons_self u rest, h ▸ hu⟩
        · exact Or.inr ⟨v, List.mem_cons_of_mem u hv, hve⟩

/-- Unfolding of the urlset branch. -/
theorem parseSitemapXml_urlset (fuel : Nat) (env : SitemapEnv) (xml origin : String)
    (limit : Nat) (hdoc : (env.load xml).childSitemapLocs = []) :
    parseSitemapXml fuel env xml origin limit =
      jsSortByPriorityDesc (urlsetLoop limit (env.load xml).urls []) := by
  rw [parseSitemapXml]
  simp [hdoc]

/-- Unfolding of the sitemapindex branch. -/
theorem parseSitemapXml_index (fuel : Nat) (env : SitemapEnv) (xml origin : String)
    (limit : Nat) (hdoc : (env.load xml).childSitemapLocs ≠ []) :
    parseSitemapXml fuel env xml origin limit =
      (childSitemapLoop fuel env limit (env.load xml).childSitemapLocs []).take limit := by
  rw [parseSitemapXml]
  simp [hdoc]

/-! ## Claim C2 -/

/-- C2: on a sitemap document with no `<sitemapindex>`, whose `<url>`
entries all carry a non-empty `<loc>` and whose count `N` is within the
limit, `parseSitemapXml` returns exactly `N` entries, sorted by priority
descending; ties keep source XML order (for every priority value, the
subsequence of result entries of that priority equals the extracted
entries of that priority in document order); and in general every
returned entry stems from a `<url>` element with a `<loc>` (loc-less
elements are excluded). -/
theorem parseSitemapXml_urlset_spec (env : SitemapEnv) (xml origin : String)
    (limit fuel : Nat) (hdoc : (env.load xml).childSitemapLocs = []) :
    (∀ e ∈ parseSitemapXml fuel env xml origin limit,
       ∃ u ∈ (env.load xml).urls, urlEntry u = some e) ∧
    (parseSitemapXml fuel env xml origin limit).Pairwise prioGE ∧
    ((∀ u ∈ (env.load xml).urls, jsTrim u.locText ≠ "") →
      (env.load xml).urls.length ≤ limit →
      (parseSitemapXml fuel env xml origin limit).length = (env.load xml).urls.length ∧
      ∀ p : ℚ,
        (parseSitemapXml fuel env xml origin limit).filter
            (fun e => decide (e.priority = p)) =
          ((env.load xml).urls.filterMap urlEntry).filter
            (fun e => decide (e.priority = p))) := by
  rw [parseSitemapXml_urlset fuel env xml origin limit hdoc]
  refine ⟨?_, sorted_jsSort _, ?_⟩
  · intro e he
    rcases mem_urlsetLoop limit _ [] ((mem_jsSort _).mp he) with h | h
    · simp at h
    · exact h
  · intro hloc hlen
    have hfm : ((env.load xml).urls.filterMap urlEntry).length =
        (env.load xml).urls.length := length_filterMap_urlEntry hloc
    have hloop : urlsetLoop limit (env.load xml).urls [] =
        (env.load xml).urls.filterMap urlEntry := by
      have := urlsetLoop_eq_filterMap limit (env.load xml).urls []
        (by simp [hfm]; omega)
      simpa using this
    rw [hloop]
    exact ⟨by rw [length_jsSort, hfm], fun p => filter_jsSort p _⟩

/-- Witness for C2 on the repository's four-entry urlset fixture. -/
theorem parseSitemapXml_urlset_spec_witness :
    (parseSitemapXml 3 envUrlset "x" "" 50).length = (envUrlset.load "x").urls.length ∧
    (parseSitemapXml 3 envUrlset "x" "" 50).Pairwise prioGE := by
  have h := parseSitemapXml_urlset_spec envUrlset "x" "" 50 3 (by decide)
  exact ⟨(h.2.2 (by decide) (by decide)).1, h.2.1⟩

/-! ## Claim C7 -/

/-- C7: for a `<url>` element with a non-empty `<loc>`, the priority is
the parsed float of the `<priority>` text, and exactly `0.5` when the
element is absent (empty text) or its text does not parse as a float. -/
theorem urlEntry_priority_default (u : UrlElem) (hloc : jsTrim u.locText ≠ "") :
    (jsParseFloat u.priorityText = none →
       (urlEntry u).map SitemapEntry.priority = some (mkRat 1 2)) ∧
    (u.priorityText = "" → jsParseFloat u.priorityText = none) ∧
    (∀ q : ℚ, jsParseFloat u.priorityText = some q → q ≠ 0 →
       (urlEntry u).map SitemapEntry.priority = some q) := by
  refine ⟨?_, ?_, ?_⟩
  · intro hnone
    unfold urlEntry
    rw [if_neg hloc]
    simp [jsOrDefault, hnone]
  · intro hempty
    rw [hempty]
    decide
  · intro q hq hq0
    unfold urlEntry
    rw [if_neg hloc]
    simp [jsOrDefault, hq, hq0]

/-- Witness for C7: an entry with a `loc` but no `<priority>` element
gets priority exactly 1/2. -/
theorem urlEntry_priority_default_witness :
    (urlEntry { locText := "https://example.com/page", priorityText := "",
                lastmodText := "" }).map SitemapEntry.priority = some (mkRat 1 2) := by
  have h := urlEntry_priority_default
    { locText := "https://example.com/page", priorityText := "", lastmodText := "" }
    (by decide)
  exact h.1 (h.2.1 rfl)

/-! ## Claim C10 -/

/-- C10: a `<priority>` whose text parses to the float `0` is treated
exactly like an absent one — the entry gets priority `0.5`, because the
source applies `|| 0.5` to the `parseFloat` result and `0` is falsy. -/
theorem urlEntry_zero_priority (u : UrlElem) (hloc : jsTrim u.locText ≠ "")
    (hq : jsParseFloat u.priorityText = some 0) :
    (urlEntry u).map SitemapEntry.priority = some (mkRat 1 2) := by
  unfold urlEntry
  rw [if_neg hloc]
  simp [jsOrDefault, hq]

/-- Witness for C10: `<priority>0.0</priority>` parses to `0` yet the
entry priority is 1/2. -/
theorem urlEntry_zero_priority_witness :
    jsParseFloat "0.0" = some 0 ∧
    (urlEntry { locText := "https://example.com/", priorityText := "0.0",
                lastmodText := "" }).map SitemapEntry.priority = some (mkRat 1 2) :=
  ⟨by decide,
   urlEntry_zero_priority
     { locText := "https://example.com/", priorityText := "0.0", lastmodText := "" }
     (by decide) (by decide)⟩

/-! ## Claim C4 -/

theorem childSitemapLoop_of_ge (fuel : Nat) (env : SitemapEnv) (limit : Nat)
    (cs : List String) (acc : List SitemapEntry) (h : limit ≤ acc.length) :
    childSitemapLoop fuel env limit cs acc = acc := by
  cases cs with
  | nil => rw [childSitemapLoop]
  | cons c rest =>
    rw [childSitemapLoop]
    simp [h]

/-- C4: in the `sitemapindex` branch, the result never exceeds the
limit; a child sitemap whose fetch/parse throws is skipped entirely (the
loop over the remaining children proceeds as if the child were absent,
so sibling entries are kept and no error is surfaced — the function's
total return type has no error case); in particular an index with a
single child whose fetch fails yields `[]`. -/
theorem parseSitemapXml_index_spec (env : SitemapEnv) (xml origin : String)
    (limit fuel : Nat) (hdoc : (env.load xml).childSitemapLocs ≠ []) :
    (parseSitemapXml fuel env xml origin limit).length ≤ limit ∧
    (∀ (c : String) (rest : List String) (acc : List SitemapEntry) (err : SitemapError),
       fetchSitemap fuel env (jsTrim c) (limit - acc.length) = Except.error err →
       childSitemapLoop fuel env limit (c :: rest) acc =
         childSitemapLoop fuel env limit rest acc) ∧
    (∀ (c : String) (err : SitemapError),
       (env.load xml).childSitemapLocs = [c] →
       fetchSitemap fuel env (jsTrim c) limit = Except.error err →
       parseSitemapXml fuel env xml origin limit = []) := by
  have hskip : ∀ (c : String) (rest : List String) (acc : List SitemapEntry)
      (err : SitemapError),
      fetchSitemap fuel env (jsTrim c) (limit - acc.length) = Except.error err →
      childSitemapLoop fuel env limit (c :: rest) acc =
        childSitemapLoop fuel env limit rest acc := by
    intro c rest acc err herr
    by_cases hc : limit ≤ acc.length
    · rw [childSitemapLoop_of_ge fuel env limit (c :: rest) acc hc,
        childSitemapLoop_of_ge fuel env limit rest acc hc]
    · rw [childSitemapLoop]
      simp only [hc, if_false, herr]
  refine ⟨?_, hskip, ?_⟩
  · rw [parseSitemapXml_index fuel env xml origin limit hdoc]
    rw [List.length_take]
    exact Nat.min_le_left _ _
  · intro c err hc herr
    rw [parseSitemapXml_index fuel env xml origin limit hdoc, hc]
    rw [hskip c [] [] err (by simpa using herr)]
    rw [childSitemapLoop]
    simp

/-- Witness for C4: a sitemapindex with one broken child yields an empty
result, within the limit. -/
theorem parseSitemapXml_index_spec_witness :
    parseSitemapXml 5 envIndexOneChild "x" "" 50 = [] ∧
    (parseSitemapXml 5 envIndexOneChild "x" "" 50).length ≤ 50 := by
  have h := parseSitemapXml_index_spec envIndexOneChild "x" "" 50 5 (by decide)
  exact ⟨h.2.2 "https://example.com/broken-sitemap.xml" SitemapError.netFail
    (by decide) (by rw [fetchSitemap]; rfl), h.1⟩

/-! ## Claim C8 -/

/-- C8: `fetchSitemap` surfaces a non-2xx response as an error carrying
the HTTP status; on a 2xx response it parses the body and cannot error.
Within the Sitemap Resolver it is the only operation typed to raise:
`discoverSitemapUrl` and `parseSitemapXml` are total (every internal
fetch failure is swallowed by their `catch` arms). -/
theorem fetchSitemap_http_spec (env : SitemapEnv) (url : String) (limit fuel : Nat)
    (status : Nat) (body : String) (hnet : env.net url = FetchOutcome.resp status body) :
    (respOkB status = false →
       fetchSitemap (fuel + 1) env url limit =
         Except.error (SitemapError.httpError status)) ∧
    (respOkB status = true →
       fetchSitemap (fuel + 1) env url limit =
         Except.ok (parseSitemapXml fuel env body (env.originOf url) limit)) := by
  constructor
  · intro hko
    rw [fetchSitemap, hnet]
    simp [hko]
  · intro hok
    rw [fetchSitemap, hnet]
    simp [hok]

/-- Witness for C8: a 404 response yields the status-carrying error. -/
theorem fetchSitemap_http_spec_witness :
    fetchSitemap 1 env404 "https://example.com/sitemap.xml" 50 =
      Except.error (SitemapError.httpError 404) :=
  (fetchSitemap_http_spec env404 "https://example.com/sitemap.xml" 50 0 404
    "Not Found" (by decide)).1 (by decide)

/-! ## Claim C3 -/

theorem tryCandidates_eq_find (env : SitemapEnv) (cs : List String) :
    tryCandidates env cs = cs.find? (sitemapAccepted env) := by
  induction cs with
  | nil => rfl
  | cons u rest ih =>
    rw [tryCandidates, List.find?_cons]
    cases hnet : env.net u with
    | netFail => simp [sitemapAccepted, hnet, ih]
    | resp status body =>
      by_cases hacc : respOkB status &&
          (jsIncludes body "<urlset" || jsIncludes body "<sitemapindex")
      · simp [sitemapAccepted, hnet, hacc]
      · simp [sitemapAccepted, hnet, hacc, ih]

/-- C3: `discoverSitemapUrl` is a total function (all fetch failures are
swallowed, it cannot raise) returning the first candidate, in order,
that fetches ok and whose body contains `<urlset` or `<sitemapindex`.
When robots.txt fetches ok and carries a `Sitemap:` directive, the
candidate order is exactly the declared URL followed by
`{origin}/sitemap.xml`, `{origin}/sitemap_index.xml`,
`{origin}/sitemap/sitemap.xml`; and when every candidate fails the
result is `none`. -/
theorem discoverSitemapUrl_spec (env : SitemapEnv) (baseUrl : String) :
    discoverSitemapUrl env baseUrl =
      (discoverCandidates env baseUrl).find? (sitemapAccepted env) ∧
    (∀ (status : Nat) (body u : String),
       env.net (jsStripTrailingSlash baseUrl ++ "/robots.txt") =
         FetchOutcome.resp status body →
       respOkB status = true →
       robotsSitemapValue body.data = some u →
       discoverCandidates env baseUrl =
         [u, jsStripTrailingSlash baseUrl ++ "/sitemap.xml",
          jsStripTrailingSlash baseUrl ++ "/sitemap_index.xml",
          jsStripTrailingSlash baseUrl ++ "/sitemap/sitemap.xml"]) ∧
    ((∀ u ∈ discoverCandidates env baseUrl, sitemapAccepted env u = false) →
       discoverSitemapUrl env baseUrl = none) := by
  refine ⟨tryCandidates_eq_find env _, ?_, ?_⟩
  · intro status body u hnet hok hval
    rw [discoverCandidates, hnet]
    simp [hok, hval]
  · intro hall
    rw [discoverSitemapUrl, tryCandidates_eq_find env _]
    exact List.find?_eq_none.mpr (fun u hu => by simp [hall u hu])

/-- Witness for C3: under total network failure every candidate fails
and discovery returns `none`. -/
theorem discoverSitemapUrl_spec_witness :
    discoverSitemapUrl envAllFail "https://example.com" = none :=
  (discoverSitemapUrl_spec envAllFail "https://example.com").2.2 (by decide)

/-! ## Claim C5 -/

theorem crawlLoop_nil (env : CrawlEnv) (origin : String) (limit fuel : Nat)
    (visited : List String) (entries : List SitemapEntry) :
    crawlLoop env origin limit fuel [] visited entries = entries := by
  cases fuel <;> rfl

theorem crawlLoop_length (env : CrawlEnv) (origin : String) (limit : Nat) :
    ∀ (fuel : Nat) (queue visited : List String) (entries : List SitemapEntry),
      entries.length ≤ limit →
      (crawlLoop env origin limit fuel queue visited entries).length ≤ limit := by
  intro fuel
  induction fuel with
  | zero => intro queue visited entries h; exact h
  | succ fuel ih =>
    intro queue visited entries h
    cases queue with
    | nil => exact h
    | cons url rest =>
      rw [crawlLoop]
      by_cases hl : limit ≤ entries.length
      · simp only [hl, if_true]; exact h
      · simp only [hl, if_false]
        by_cases hv : (visited.contains (jsSplitHash url)) = true
        · simp only [hv, if_true]
          exact ih rest visited entries h
        · simp only [hv, if_false]
          cases hfp : fetchPageOpt env (jsSplitHash url) with
          | none => exact ih rest _ entries h
          | some html =>
            cases hp : env.parse (jsSplitHash url) with
            | none => exact ih rest _ entries h
            | some parts =>
              refine ih _ _ _ ?_
              simp only [List.length_append, List.length_cons, List.length_nil]
              omega

theorem crawlLoop_prefix (env : CrawlEnv) (origin : String) (limit : Nat) :
    ∀ (fuel : Nat) (queue visited : List String) (entries : List SitemapEntry),
      ∃ t, crawlLoop env origin limit fuel queue visited entries = entries ++ t := by
  intro fuel
  induction fuel with
  | zero => intro queue visited entries; exact ⟨[], by simp [crawlLoop]⟩
  | succ fuel ih =>
    intro queue visited entries
    cases queue with
    | nil => exact ⟨[], by simp [crawlLoop]⟩
    | cons url rest =>
      rw [crawlLoop]
      by_cases hl : limit ≤ entries.length
      · exact ⟨[], by simp [hl]⟩
      · rw [if_neg hl]
        by_cases hv : (visited.contains (jsSplitHash url)) = true
        · rw [if_pos hv]
          exact ih rest visited entries
        · rw [if_neg hv]
          cases hfp : fetchPageOpt env (jsSplitHash url) with
          | none => exact ih rest _ entries
          | some html =>
            cases hp : env.parse (jsSplitHash url) with
            | none => exact ih rest _ entries
            | some parts =>
              obtain ⟨t, ht⟩ := ih
                (enqueueLinks env origin (jsSplitHash url :: visited) (jsSplitHash url)
                  (env.hrefs html) rest)
                (jsSplitHash url :: visited)
                (entries ++ [{ url := jsSplitHash url,
                               priority := if parts.pathname = "/" || jsSplitHash url = origin
                                           then 1 else mkRat 1 2,
                               lastmod := none }])
              exact ⟨_, by simpa [List.append_assoc] using ht⟩

/-- Counterexample to C5 as stated: for the base URL
`https://example.com/docs` (a path, not the site root) the crawl
succeeds and the seed is the first entry — but its priority is 1/2,
not 1.0, because its pathname is not `/` and it differs from the
origin. -/
theorem crawlSite_seed_priority_counterexample :
    crawlSite envCrawlDocs "https://example.com/docs" 10 5 =
      some [{ url := "https://example.com/docs", priority := mkRat 1 2,
              lastmod := none }] ∧
    ¬ (mkRat 1 2 : ℚ) = 1 := by
  constructor
  · decide
  · decide

/-- C5 (amended): `crawlSite` never returns more than `limit` entries;
and whenever the returned list is non-empty, its first entry is the
fragment-stripped normalized seed URL, with priority 1.0 exactly when
the seed's parsed pathname is `/` or the seed equals the site origin,
and 0.5 otherwise.  (As stated the claim fails: a base URL with a
non-root path gets seed priority 0.5, and a failing seed fetch yields an
empty result with no first entry.) -/
theorem crawlSite_spec (env : CrawlEnv) (baseUrl : String) (limit fuel : Nat)
    (r : List SitemapEntry) (hr : crawlSite env baseUrl limit fuel = some r) :
    r.length ≤ limit ∧
    (r ≠ [] → ∀ b : UrlParts, env.parse baseUrl = some b →
      ∃ (parts : UrlParts) (rest : List SitemapEntry),
        env.parse (jsSplitHash (if jsStripTrailingSlash baseUrl = "" then b.origin
                                else jsStripTrailingSlash baseUrl)) = some parts ∧
        r = { url := jsSplitHash (if jsStripTrailingSlash baseUrl = "" then b.origin
                                  else jsStripTrailingSlash baseUrl),
              priority :=
                if parts.pathname = "/" ||
                    jsSplitHash (if jsStripTrailingSlash baseUrl = "" then b.origin
                                 else jsStripTrailingSlash baseUrl) = b.origin
                then 1 else mkRat 1 2,
              lastmod := none } :: rest) := by
  rw [crawlSite] at hr
  cases hpb : env.parse baseUrl with
  | none => rw [hpb] at hr; exact absurd hr (by simp)
  | some b =>
    rw [hpb] at hr
    simp only [Option.some.injEq] at hr
    subst hr
    constructor
    · exact crawlLoop_length env b.origin limit fuel _ _ [] (by simp)
    · intro hne b' hb'
      simp only [Option.some.injEq] at hb'
      subst hb'
      set seed := if jsStripTrailingSlash baseUrl = "" then b.origin
                  else jsStripTrailingSlash baseUrl with hseed
      cases fuel with
      | zero => exact (hne rfl).elim
      | succ fuel =>
        rw [crawlLoop] at hne ⊢
        by_cases hl : limit ≤ (0 : Nat)
        · rw [if_pos (by simpa using hl)] at hne
          exact (hne rfl).elim
        · rw [if_neg (by simpa using hl)] at hne ⊢
          rw [if_neg (by simp)] at hne ⊢
          cases hfp : fetchPageOpt env (jsSplitHash seed) with
          | none =>
            rw [hfp] at hne
            exact (hne (crawlLoop_nil env b.origin limit fuel _ _)).elim
          | some html =>
            cases hp : env.parse (jsSplitHash seed) with
            | none =>
              rw [hfp, hp] at hne
              exact (hne (crawlLoop_nil env b.origin limit fuel _ _)).elim
            | some parts =>
              obtain ⟨t, ht⟩ := crawlLoop_prefix env b.origin limit fuel
                (enqueueLinks env b.origin [jsSplitHash seed] (jsSplitHash seed)
                  (env.hrefs html) [])
                [jsSplitHash seed]
                ([] ++ [{ url := jsSplitHash seed,
                          priority := if parts.pathname = "/" || jsSplitHash seed = b.origin
                                      then 1 else mkRat 1 2,
                          lastmod := none }])
              exact ⟨parts, t, rfl, ht⟩

/-- Witness for the amended C5 on a concrete crawl. -/
theorem crawlSite_spec_witness :
    ∃ r : List SitemapEntry,
      crawlSite envCrawlDocs "https://example.com/docs" 10 5 = some r ∧
      r.length ≤ 10 ∧ r ≠ [] := by
  refine ⟨[{ url := "https://example.com/docs", priority := mkRat 1 2, lastmod := none }],
    by decide, ?_, by decide⟩
  exact (crawlSite_spec envCrawlDocs "https://example.com/docs" 10 5 _ (by decide)).1

/-! ## Claim C9 -/

/-- C9: `cleanTitle` returns the title unchanged when either argument is
empty, and otherwise strips a single trailing separator-plus-sitename
suffix, case-insensitively, returning the trimmed remainder — in
particular on the two spec examples. -/
theorem cleanTitle_spec :
    (∀ t : String, cleanTitle t "" = t) ∧
    (∀ s : String, cleanTitle "" s = "") ∧
    cleanTitle "About Us | Example" "Example" = "About Us" ∧
    cleanTitle "Docs | EXAMPLE" "Example" = "Docs" ∧
    cleanTitle "A | Example | Example" "Example" = "A | Example" := by
  refine ⟨fun t => by simp [cleanTitle], fun s => by simp [cleanTitle],
    by decide, by decide, by decide⟩

/-! ## Heading-shape lemmas -/

theorem ish_false_head {c : Char} (hc : ¬ c = '#') (s : String)
    (h : s.data.head? = some c) : isSectionHeading s = false := by
  unfold isSectionHeading
  cases hd : s.data with
  | nil => rw [hd] at h; simp at h
  | cons a l =>
    rw [hd] at h
    simp only [List.head?_cons, Option.some.injEq] at h
    subst h
    simp [List.take_succ_cons, hc]

theorem ish_hash_space (n : String) : isSectionHeading ("# " ++ n) = false := by
  unfold isSectionHeading
  rw [String.data_append]
  have h2 : ("# " : String).data = ['#', ' '] := rfl
  rw [h2]
  simp [List.take_succ_cons]

theorem ish_empty : isSectionHeading "" = false := by decide

theorem ish_gt (d : String) : isSectionHeading ("> " ++ d) = false := by
  refine @ish_false_head '>' (by decide) ("> " ++ d) ?_
  rw [String.data_append]
  rfl

theorem ish_gen (date : String) :
    isSectionHeading ("*Generated: " ++ date ++ "*") = false := by
  refine @ish_false_head '*' (by decide) ("*Generated: " ++ date ++ "*") ?_
  rw [String.data_append, String.data_append]
  rfl

/-! ## Claim C6 -/

theorem joinNl_trailing (x : String) :
    ∀ l : List String, ∃ t, joinNl (x :: (l ++ [""])) = t ++ "\n" := by
  intro l
  induction l generalizing x with
  | nil =>
    refine ⟨x, ?_⟩
    show x ++ "\n" ++ joinNl [""] = x ++ "\n"
    show x ++ "\n" ++ "" = x ++ "\n"
    rw [String.append_empty]
  | cons y ys ih =>
    obtain ⟨t, ht⟩ := ih y
    refine ⟨x ++ "\n" ++ t, ?_⟩
    show x ++ "\n" ++ joinNl (y :: (ys ++ [""])) = x ++ "\n" ++ t ++ "\n"
    rw [ht]
    simp [String.append_assoc]

/-- Counterexample to C6 as stated: on an empty page list the output of
`formatLlmTxt` contains no `Key Pages` heading at all (the source emits
the heading only when the key-page bucket is non-empty). -/
theorem formatLlmTxt_empty_counterexample :
    jsIncludes (formatLlmTxt puNone "MySite" "Desc" [] "2026-01-15") "## Key Pages"
      = false ∧
    formatLines puNone "MySite" "Desc" [] "2026-01-15" =
      ["# MySite", "", "> Desc", "", "*Generated: 2026-01-15*", ""] := by
  constructor
  · decide
  · decide

/-- C6 (amended): `formatLlmTxt` on an empty page list still emits the
`# {siteName}` title line, the site-description blockquote and the
generation-date line, and its output ends with a trailing newline — but
no `Key Pages` heading (no section heading at all) is emitted, since
every section heading is guarded by its section being non-empty. -/
theorem formatLlmTxt_empty_pages (pu : String → Option String)
    (siteName siteDescription date : String) :
    formatLines pu siteName siteDescription [] date =
      ["# " ++ siteName, "", "> " ++ siteDescription, "",
       "*Generated: " ++ date ++ "*", ""] ∧
    (∃ t, formatLlmTxt pu siteName siteDescription [] date = t ++ "\n") ∧
    (∀ s ∈ formatLines pu siteName siteDescription [] date,
       isSectionHeading s = false) := by
  have hlines : formatLines pu siteName siteDescription [] date =
      ["# " ++ siteName, "", "> " ++ siteDescription, "",
       "*Generated: " ++ date ++ "*", ""] := rfl
  refine ⟨hlines, ?_, ?_⟩
  · rw [formatLlmTxt, hlines]
    exact joinNl_trailing _ ["", "> " ++ siteDescription, "",
      "*Generated: " ++ date ++ "*"]
  · intro s hs
    rw [hlines] at hs
    simp only [List.mem_cons, List.not_mem_nil, or_false] at hs
    rcases hs with rfl | rfl | rfl | rfl | rfl | rfl
    · exact ish_hash_space siteName
    · exact ish_empty
    · exact ish_gt siteDescription
    · exact ish_empty
    · exact ish_gen date
    · exact ish_empty

/-- Witness for the amended C6 at a concrete site name, description and
date. -/
theorem formatLlmTxt_empty_pages_witness :
    isSectionHeading "# MySite" = false ∧
    (∃ t, formatLlmTxt puNone "MySite" "Desc" [] "2026-01-15" = t ++ "\n") := by
  have h := formatLlmTxt_empty_pages puNone "MySite" "Desc" "2026-01-15"
  exact ⟨h.2.2 "# MySite" (by rw [h.1]; simp), h.2.1⟩

/-! ## Claim C1: partition lemmas -/

theorem count_filter_partition (l : List PageData) (f : PageData → Bool) (p : PageData) :
    (l.filter f).count p + (l.filter (fun x => !f x)).count p = l.count p := by
  induction l with
  | nil => rfl
  | cons x xs ih =>
    rw [List.count_cons, List.filter_cons, List.filter_cons]
    cases hf : f x <;> simp [List.count_cons, ih] <;> omega

theorem sectionsCount_addToSections (gs : List (String × List PageData))
    (lab : String) (x p : PageData) :
    sectionsCount (addToSections gs lab x) p =
      sectionsCount gs p + ([x] : List PageData).count p := by
  induction gs with
  | nil => simp [addToSections, sectionsCount]
  | cons g rest ih =>
    obtain ⟨l, ps⟩ := g
    rw [addToSections]
    by_cases hl : l = lab
    · simp only [hl, if_true, sectionsCount, List.foldr_cons, List.count_append]
      omega
    · simp only [hl, if_false, sectionsCount, List.foldr_cons] at ih ⊢
      omega

theorem sectionsCount_foldl (pu : String → Option String) (p : PageData) :
    ∀ (l : List PageData) (gs : List (String × List PageData)),
      sectionsCount
        (l.foldl (fun gs x => addToSections gs (getSectionLabel pu x.url) x) gs) p =
        sectionsCount gs p + l.count p := by
  intro l
  induction l with
  | nil => intro gs; simp
  | cons x xs ih =>
    intro gs
    rw [List.foldl_cons, ih, sectionsCount_addToSections]
    rw [List.count_cons, List.count_cons]
    simp only [List.count_nil]
    omega

theorem keys_addToSections (gs : List (String × List PageData)) (lab : String)
    (x : PageData) :
    (addToSections gs lab x).map Prod.fst =
      if lab ∈ gs.map Prod.fst then gs.map Prod.fst
      else gs.map Prod.fst ++ [lab] := by
  induction gs with
  | nil => simp [addToSections]
  | cons g rest ih =>
    obtain ⟨l, ps⟩ := g
    rw [addToSections]
    by_cases hl : l = lab
    · simp [hl]
    · simp only [hl, if_false, List.map_cons, ih]
      by_cases hmem : lab ∈ rest.map Prod.fst
      · simp [hmem, Ne.symm hl]
      · simp [hmem, Ne.symm hl]

theorem nodup_keys_addToSections {gs : List (String × List PageData)}
    (h : (gs.map Prod.fst).Nodup) (lab : String) (x : PageData) :
    ((addToSections gs lab x).map Prod.fst).Nodup := by
  rw [keys_addToSections]
  by_cases hmem : lab ∈ gs.map Prod.fst
  · simpa [hmem] using h
  · simp only [hmem, if_false]
    simp [List.nodup_append, h, hmem]

theorem nodup_keys_foldl (pu : String → Option String) :
    ∀ (l : List PageData) (gs : List (String × List PageData)),
      (gs.map Prod.fst).Nodup →
      ((l.foldl (fun gs x => addToSections gs (getSectionLabel pu x.url) x) gs).map
          Prod.fst).Nodup := by
  intro l
  induction l with
  | nil => intro gs h; exact h
  | cons x xs ih =>
    intro gs h
    exact ih _ (nodup_keys_addToSections h _ x)

/-- The labelling invariant of the section map. -/
def GroupsLabelled (pu : String → Option String)
    (gs : List (String × List PageData)) : Prop :=
  ∀ l g, (l, g) ∈ gs → ∀ x ∈ g,
    isKeyPage pu x.url = false ∧ getSectionLabel pu x.url = l

theorem groupsLabelled_addToSections {pu : String → Option String}
    {gs : List (String × List PageData)} (h : GroupsLabelled pu gs)
    {x : PageData} (hx : isKeyPage pu x.url = false) :
    GroupsLabelled pu (addToSections gs (getSectionLabel pu x.url) x) := by
  induction gs with
  | nil =>
    intro l g hmem y hy
    rw [addToSections] at hmem
    simp only [List.mem_singleton, Prod.mk.injEq] at hmem
    obtain ⟨hl, hg⟩ := hmem
    subst hl
    subst hg
    simp only [List.mem_singleton] at hy
    subst hy
    exact ⟨hx, rfl⟩
  | cons g0 rest ih =>
    obtain ⟨l0, ps⟩ := g0
    have hrest : GroupsLabelled pu rest := fun l g hm => h l g (List.mem_cons_of_mem _ hm)
    have hhead := h l0 ps (List.mem_cons_self _ _)
    rw [addToSections]
    by_cases hl0 : l0 = getSectionLabel pu x.url
    · rw [if_pos hl0]
      intro l g hmem y hy
      rcases List.mem_cons.mp hmem with heq | hmem
      · injection heq with hl hg
        subst hl
        subst hg
        rcases List.mem_append.mp hy with hy | hy
        · exact hhead y hy
        · simp only [List.mem_singleton] at hy
          subst hy
          exact ⟨hx, hl0.symm⟩
      · exact hrest l g hmem y hy
    · rw [if_neg hl0]
      intro l g hmem y hy
      rcases List.mem_cons.mp hmem with heq | hmem
      · injection heq with hl hg
        subst hl
        subst hg
        exact hhead y hy
      · exact ih hrest l g hmem y hy

theorem groupsLabelled_foldl (pu : String → Option String) :
    ∀ (l : List PageData) (gs : List (String × List PageData)),
      GroupsLabelled pu gs → (∀ x ∈ l, isKeyPage pu x.url = false) →
      GroupsLabelled pu
        (l.foldl (fun gs x => addToSections gs (getSectionLabel pu x.url) x) gs) := by
  intro l
  induction l with
  | nil => intro gs h _; exact h
  | cons x xs ih =>
    intro gs h hkey
    exact ih _ (groupsLabelled_addToSections h (hkey x (List.mem_cons_self x xs)))
      (fun y hy => hkey y (List.mem_cons_of_mem x hy))

/-- C1: classification is a strict partition — for every page (counted
with multiplicity) the occurrences in the Key Pages bucket plus the
occurrences across the topic-section buckets equal its occurrences in
the input, so no page is dropped or double-placed; section keys are
distinct and every page of a topic bucket is a non-key page whose
section label is exactly that bucket's key (so it lies in exactly one
topic section); every page of the key bucket is a key page; and when
the key bucket is non-empty the first section heading rendered by
`formatLlmTxt` is `## Key Pages`. -/
theorem formatLlmTxt_partition (pu : String → Option String) (pages : List PageData)
    (siteName siteDescription date : String) :
    (∀ p : PageData,
       (keyPages pu pages).count p + sectionsCount (sectionGroups pu pages) p =
         pages.count p) ∧
    ((sectionGroups pu pages).map Prod.fst).Nodup ∧
    GroupsLabelled pu (sectionGroups pu pages) ∧
    (∀ x ∈ keyPages pu pages, isKeyPage pu x.url = true) ∧
    (keyPages pu pages ≠ [] →
       ((formatLines pu siteName siteDescription pages date).filter
           isSectionHeading).head? = some "## Key Pages") := by
  refine ⟨?_, ?_, ?_, ?_, ?_⟩
  · intro p
    have hfold := sectionsCount_foldl pu p (otherPages pu pages) []
    rw [sectionGroups, hfold]
    have hzero : sectionsCount [] p = 0 := rfl
    rw [hzero, Nat.zero_add]
    exact count_filter_partition pages (fun x => isKeyPage pu x.url) p
  · exact nodup_keys_foldl pu (otherPages pu pages) [] (by simp)
  · refine groupsLabelled_foldl pu (otherPages pu pages) []
      (fun l g hm => absurd hm (List.not_mem_nil _)) ?_
    intro x hx
    have := (List.mem_filter.mp hx).2
    simpa using this
  · intro x hx
    exact (List.mem_filter.mp hx).2
  · intro hkp
    obtain ⟨a, as, hk⟩ : ∃ a as, keyPages pu pages = a :: as := by
      cases hkc : keyPages pu pages with
      | nil => exact absurd hkc hkp
      | cons a as => exact ⟨a, as, rfl⟩
    have htrue : isSectionHeading "## Key Pages" = true := by decide
    rw [formatLines, hk]
    simp only [List.isEmpty_cons, if_false, Bool.false_eq_true]
    rw [List.filter_append, List.filter_append, List.filter_append]
    rw [show (["# " ++ siteName, "", "> " ++ siteDescription, "",
         "*Generated: " ++ date ++ "*", ""].filter isSectionHeading) = [] by
      simp [List.filter_cons, ish_hash_space, ish_empty, ish_gt, ish_gen]]
    rw [show ((["## Key Pages", ""] ++ (a :: as).map (pageLine siteName) ++ [""]).filter
         isSectionHeading) = "## Key Pages" ::
           (("" :: ((a :: as).map (pageLine siteName) ++ [""])).filter isSectionHeading) by
      simp [List.filter_cons, htrue]]
    simp

/-- Witness for C1 on a concrete two-page input (a key homepage and a
blog post). -/
theorem formatLlmTxt_partition_witness :
    ((formatLines puPair "Example" "A site" pagesPair "2026-01-15").filter
        isSectionHeading).head? = some "## Key Pages" ∧
    (keyPages puPair pagesPair).count
        { url := "https://example.com/", title := "Home", description := "d1",
          h1 := "h", content := "" } +
      sectionsCount (sectionGroups puPair pagesPair)
        { url := "https://example.com/", title := "Home", description := "d1",
          h1 := "h", content := "" } = pagesPair.count
        { url := "https://example.com/", title := "Home", description := "d1",
          h1 := "h", content := "" } := by
  have h := formatLlmTxt_partition puPair pagesPair "Example" "A site" "2026-01-15"
  exact ⟨h.2.2.2.2 (by decide), h.1 _⟩

end LlmTxtGen
